import Mathlib

/-!
# Verification of the dbus-broker policy core (src/policy.c)

A shallow embedding of the policy data model and decision algorithms of
`src/policy.c`: decisions, the connection policy, the ownership policy, the
transmission policy, and the control flow of the policy-document loader.
Intrusive red-black trees keyed by strings or uids are modelled as
association lists in which each key occurs at most once (the tree maintains
exactly this map abstraction); C strings are modelled as `List Char`;
`uint64_t` priorities are modelled as `Nat` (the code only compares and
copies them, so no wrap-around is observable); the `int` return codes are
modelled as `Int`.
-/

set_option maxHeartbeats 1000000

/-- `PolicyDecision` (policy.h): a deny flag together with a `uint64_t`
priority. -/
structure PolicyDecision where
  deny : Bool
  priority : Nat
deriving DecidableEq, Repr

/-- The error codes surfaced to the caller. `POLICY_E_ACCESS_DENIED` and
`POLICY_E_INVALID_XML` are enum constants declared in policy.h, which is not
part of the excerpt; only being nonzero and mutually distinct positive values
matters to the control flow in policy.c, so concrete small values are used. -/
def POLICY_E_ACCESS_DENIED : Int := 1

def POLICY_E_INVALID_XML : Int := 2

/-- Lookup in a decision tree: models `c_rbtree_find_entry` with
`ownership_policy_entry_compare` (policy.c:89, bounded-length string
comparison, i.e. plain string equality of the stored key) or
`connection_policy_entry_compare` (policy.c:240, uid comparison). -/
def assoc_find {K A : Type} [DecidableEq K] : List (K × A) → K → Option A
  | [], _ => none
  | (k1, a) :: t, k => if k = k1 then some a else assoc_find t k

/-- `ownership_policy_add_entry` (policy.c:105) and
`connection_policy_add_entry` (policy.c:252): find the slot for the key; if an
entry already exists, overwrite its decision only when the stored priority is
strictly lower than the new one; otherwise insert a fresh entry. -/
def policy_add_entry {K : Type} [DecidableEq K] (t : List (K × PolicyDecision)) (k : K) (deny : Bool) (priority : Nat) : List (K × PolicyDecision) :=
  match t with
  | [] => [(k, ⟨deny, priority⟩)]
  | (k1, d) :: rest =>
    if k = k1 then
      (k1, if d.priority < priority then ⟨deny, priority⟩ else d) :: rest
    else
      (k1, d) :: policy_add_entry rest k deny priority

/-- `ownership_policy_update_decision` (policy.c:138) and
`connection_policy_update_decision` (policy.c:280): look the key up; when an
entry exists whose priority is not lower than the current decision, it
replaces the current decision. -/
def policy_update_decision {K : Type} [DecidableEq K] (t : List (K × PolicyDecision)) (k : K) (decision : PolicyDecision) : PolicyDecision :=
  match assoc_find t k with
  | none => decision
  | some e => if e.priority < decision.priority then decision else e

/-- `OwnershipPolicy` (policy.h): exact names, dotted prefixes, and a wildcard
decision. -/
structure OwnershipPolicy where
  names : List (List Char × PolicyDecision)
  prefixes : List (List Char × PolicyDecision)
  wildcard : PolicyDecision

/-- The candidate key lengths enumerated by the do/while loop of
`ownership_policy_check_allowed` (policy.c:161-169): `strchrnul` scans start
at offset 1, so the candidates are every position of a dot at offset 1 or
later, followed by the full length. `scanned` counts the characters already
consumed; `rest` is the remaining suffix, whose head sits at index `scanned`
of the full name. -/
def prefix_scan (scanned : Nat) (rest : List Char) : List Nat :=
  match rest with
  | [] => [scanned]
  | c :: r => if c = '.' then scanned :: prefix_scan (scanned + 1) r else prefix_scan (scanned + 1) r

/-- `ownership_policy_check_allowed` (policy.c:152): start from the wildcard,
merge the exact name entry, then (when the prefix store is nonempty) merge the
entry for each dotted prefix of the name. A NUL-terminated C string is read
from offset 1 by the scan, so the empty name is undefined behaviour in the
source; the model's value there is irrelevant and all theorems assume a
nonempty name where the scan is involved. -/
def ownership_policy_check_allowed (p : OwnershipPolicy) (name : List Char) : Int :=
  let d1 := policy_update_decision p.names name p.wildcard
  let d2 :=
    if p.prefixes = [] then d1
    else (prefix_scan 1 (name.drop 1)).foldl (fun d n => policy_update_decision p.prefixes (name.take n) d) d1
  if d2.deny then POLICY_E_ACCESS_DENIED else 0

/-- `ConnectionPolicy` (policy.h): per-uid entries, per-gid entries, and the
two wildcards. -/
structure ConnectionPolicy where
  uid_tree : List (Nat × PolicyDecision)
  gid_tree : List (Nat × PolicyDecision)
  uid_wildcard : PolicyDecision
  gid_wildcard : PolicyDecision

/-- `connection_policy_check_allowed` (policy.c:294): start from the
higher-priority wildcard (ties go to the gid wildcard), merge the per-uid
entry. The gid tree is never consulted: the source carries the comment
`XXX: check the groups too` at policy.c:304. -/
def connection_policy_check_allowed (p : ConnectionPolicy) (uid : Nat) : Int :=
  let d1 := if p.uid_wildcard.priority > p.gid_wildcard.priority then p.uid_wildcard else p.gid_wildcard
  let d2 := policy_update_decision p.uid_tree uid d1
  if d2.deny then POLICY_E_ACCESS_DENIED else 0

/-- Modelled from the spec: `check_allowed(uid, gids[])` including step 3,
"For each gid in the peer's supplementary group list, merge in the entry keyed
by that gid." The source leaves this step unimplemented (the XXX comment at
policy.c:304), so the group merge is taken from the spec's words. -/
def connection_policy_check_allowed_spec (p : ConnectionPolicy) (uid : Nat) (gids : List Nat) : Int :=
  let d1 := if p.uid_wildcard.priority > p.gid_wildcard.priority then p.uid_wildcard else p.gid_wildcard
  let d2 := policy_update_decision p.uid_tree uid d1
  let d3 := gids.foldl (fun d g => policy_update_decision p.gid_tree g d) d2
  if d3.deny then POLICY_E_ACCESS_DENIED else 0

/-- `TransmissionPolicyEntry` (policy.h): five optional match fields and a
decision. A `none` field models a NULL pointer (for `type`, the value 0 plays
that role in the source). -/
structure TransmissionPolicyEntry where
  iface : Option (List Char)
  member : Option (List Char)
  err : Option (List Char)
  path : Option (List Char)
  msgtype : Int
  decision : PolicyDecision
deriving DecidableEq, Repr

/-- `transmission_policy_entry_new` (policy.c:310). The entry is allocated
with `malloc`; `interface` and `member` are set to NULL when the argument is
NULL, but the `error` and `path` assignments have no `else` branch, so those
two fields are left uninitialized whenever the corresponding argument is NULL.
`err_garbage` and `path_garbage` stand for whatever the uninitialized memory
happens to hold, read back as a NULL pointer or as some string. -/
def transmission_policy_entry_new (iface member err path : Option (List Char)) (msgtype : Int) (deny : Bool) (priority : Nat) (err_garbage path_garbage : Option (List Char)) : TransmissionPolicyEntry :=
  ⟨iface, member,
   (match err with
    | some s => some s
    | none => err_garbage),
   (match path with
    | some s => some s
    | none => path_garbage),
   msgtype, ⟨deny, priority⟩⟩

/-- The field checks of `transmission_policy_update_decision`
(policy.c:471-489), without the leading priority shortcut: every field present
on the entry requires the request's field to be present and equal (an absent
request field fails the match); an entry type other than 0 must equal the
request type. -/
def transmission_entry_matches (e : TransmissionPolicyEntry) (iface member err path : Option (List Char)) (msgtype : Int) : Bool :=
  (match e.iface with
   | none => true
   | some s => iface == some s) &&
  (match e.member with
   | none => true
   | some s => member == some s) &&
  (match e.err with
   | none => true
   | some s => err == some s) &&
  (match e.path with
   | none => true
   | some s => path == some s) &&
  (e.msgtype == 0 || e.msgtype == msgtype)

/-- `transmission_policy_update_decision` (policy.c:462): walk the entry list
in insertion order; skip entries whose priority is below the current
decision's; a matching entry replaces the decision. -/
def transmission_policy_update_decision (l : List TransmissionPolicyEntry) (iface member err path : Option (List Char)) (msgtype : Int) (decision : PolicyDecision) : PolicyDecision :=
  l.foldl
    (fun d e =>
      if e.decision.priority < d.priority then d
      else if transmission_entry_matches e iface member err path msgtype then e.decision
      else d)
    decision

/-- `transmission_policy_update_decision_by_name` (policy.c:495). -/
def transmission_policy_update_decision_by_name (t : List (List Char × List TransmissionPolicyEntry)) (name : List Char) (iface member err path : Option (List Char)) (msgtype : Int) (decision : PolicyDecision) : PolicyDecision :=
  match assoc_find t name with
  | none => decision
  | some l => transmission_policy_update_decision l iface member err path msgtype decision

/-- Modelled from the spec: the peer view consumed from the name registry
(name.h / peer.h are not part of the excerpt) — "for a given peer, an iterator
over the bus names it primary-owns". `primary` models
`name_ownership_is_primary`. -/
structure NameOwnership where
  name : List Char
  primary : Bool

/-- Modelled from the spec: the subject peer, reduced to the ownership list
`transmission_policy_check_allowed` iterates over. -/
structure Peer where
  owned_names : List NameOwnership

/-- `TransmissionPolicy` (policy.h): per-name entry lists plus the wildcard
entry list. -/
structure TransmissionPolicy where
  policy_by_name_tree : List (List Char × List TransmissionPolicyEntry)
  wildcard_entry_list : List TransmissionPolicyEntry

/-- The synthetic name used when the subject is the driver (policy.c:524). -/
def dbus_driver_name : List Char := ['o', 'r', 'g', '.', 'f', 'r', 'e', 'e', 'd', 'e', 's', 'k', 't', 'o', 'p', '.', 'D', 'B', 'u', 's']

/-- Append an entry to the list stored for `name`, creating the by-name node
when absent: the slot search plus `transmission_policy_by_name_new` and
`c_list_link_tail` part of `tranmsission_policy_add_entry`
(policy.c:438-450). -/
def transmission_by_name_append (t : List (List Char × List TransmissionPolicyEntry)) (name : List Char) (e : TransmissionPolicyEntry) : List (List Char × List TransmissionPolicyEntry) :=
  match t with
  | [] => [(name, [e])]
  | (n1, l) :: rest =>
    if name = n1 then (n1, l ++ [e]) :: rest
    else (n1, l) :: transmission_by_name_append rest name e

/-- `tranmsission_policy_add_entry` (policy.c:431, name sic in the source):
append a new entry to the per-name list when `name` is present, else to the
wildcard list. The two garbage arguments are passed through to
`transmission_policy_entry_new`. -/
def tranmsission_policy_add_entry (p : TransmissionPolicy) (name : Option (List Char)) (iface member err path : Option (List Char)) (msgtype : Int) (deny : Bool) (priority : Nat) (err_garbage path_garbage : Option (List Char)) : TransmissionPolicy :=
  let e := transmission_policy_entry_new iface member err path msgtype deny priority err_garbage path_garbage
  match name with
  | some n => ⟨transmission_by_name_append p.policy_by_name_tree n e, p.wildcard_entry_list⟩
  | none => ⟨p.policy_by_name_tree, p.wildcard_entry_list ++ [e]⟩

/-- `transmission_policy_check_allowed` (policy.c:507): start neutral; for a
present subject merge the per-name list of every primary-owned name, for an
absent subject merge the list stored under `"org.freedesktop.DBus"`; finally
merge the wildcard list. -/
def transmission_policy_check_allowed (p : TransmissionPolicy) (subject : Option Peer) (iface member err path : Option (List Char)) (msgtype : Int) : Int :=
  let d0 : PolicyDecision := ⟨false, 0⟩
  let d1 :=
    match subject with
    | some peer =>
        peer.owned_names.foldl
          (fun d o =>
            if o.primary then transmission_policy_update_decision_by_name p.policy_by_name_tree o.name iface member err path msgtype d
            else d)
          d0
    | none => transmission_policy_update_decision_by_name p.policy_by_name_tree dbus_driver_name iface member err path msgtype d0
  let d2 := transmission_policy_update_decision p.wildcard_entry_list iface member err path msgtype d1
  if d2.deny then POLICY_E_ACCESS_DENIED else 0

/-- Modelled from the spec: the outcome of opening the policy file and feeding
it to the XML parser (the file system and expat are external). `openFail e`
models `fopen` failing with `errno = e`; `readFail` models an `fread` error;
`content chunks_ok final_ok` records whether the incremental `XML_Parse` calls
and the finalizing `XML_Parse` call succeed, i.e. whether the document is
structurally well formed. -/
inductive FileOutcome where
  | openFail (errno : Nat)
  | readFail
  | content (chunks_ok : Bool) (final_ok : Bool)

/-- Linux errno values used by policy.c. -/
def errno_enoent : Nat := 2

def errno_eio : Nat := 5

/-- `policy_parser_parse_file` (policy.c:619): a missing file yields 0; any
other `fopen` failure yields the negative errno (`error_origin`); a read
failure yields `-EIO`; a chunk rejected by `XML_Parse` yields
`POLICY_E_INVALID_XML`. -/
def policy_parser_parse_file (f : FileOutcome) : Int :=
  match f with
  | .openFail errno => if errno = errno_enoent then 0 else -(errno : Int)
  | .readFail => -(errno_eio : Int)
  | .content chunks_ok _ => if chunks_ok then 0 else POLICY_E_INVALID_XML

/-- `policy_parser_finalize` (policy.c:648): the final `XML_Parse` call. When
nothing was fed (missing or unreadable file) the document is empty, which is
not well-formed XML, so the finalize call reports an error. -/
def policy_parser_finalize (f : FileOutcome) : Int :=
  match f with
  | .content _ final_ok => if final_ok then 0 else POLICY_E_INVALID_XML
  | _ => POLICY_E_INVALID_XML

/-- `policy_parse` (policy.c:665): on `POLICY_E_INVALID_XML` it only prints the
diagnostic (`policy_print_parsing_error`) and falls through; every other
nonzero code is returned (`error_fold` is modelled as the identity on the
code, which preserves zero/nonzero and sign). -/
def policy_parse (f : FileOutcome) : Int :=
  let r := policy_parser_parse_file f
  if r ≠ 0 ∧ r ≠ POLICY_E_INVALID_XML then r
  else
    let r2 := policy_parser_finalize f
    if r2 ≠ 0 ∧ r2 ≠ POLICY_E_INVALID_XML then r2
    else 0

/-- The highest priority occurring in a list of decisions (0 when the list is
empty); used to phrase the spec's "highest-priority rule wins" independently
of the merging code. -/
def max_priority (ds : List PolicyDecision) : Nat :=
  ds.foldr (fun d a => max d.priority a) 0

/-- The decision of the last element among those of highest priority: the
spec's "highest priority wins, ties broken by latest insertion". -/
def latest_highest (ds : List PolicyDecision) : Option PolicyDecision :=
  (ds.filter (fun d => d.priority == max_priority ds)).getLast?

/-- The decision of the first element among those of highest priority:
"highest priority wins, ties keep the earliest". -/
def earliest_highest (ds : List PolicyDecision) : Option PolicyDecision :=
  (ds.filter (fun d => d.priority == max_priority ds)).head?

/-- The bare merge loop of the decision primitive: replace the running
decision by each candidate whose priority is not lower. -/
def merge_run (init : PolicyDecision) (ds : List PolicyDecision) : PolicyDecision :=
  ds.foldl (fun d e => if e.priority < d.priority then d else e) init

/-- The update applied to a stored decision by a fresh insertion for the same
key, as performed by `policy_add_entry`: overwrite only on strictly higher
priority. -/
def ins_merge (cur : Option PolicyDecision) (deny : Bool) (priority : Nat) : PolicyDecision :=
  match cur with
  | none => ⟨deny, priority⟩
  | some c => if c.priority < priority then ⟨deny, priority⟩ else c

/-! ## Theorems -/

theorem assoc_find_add_self {K : Type} [DecidableEq K] (t : List (K × PolicyDecision)) (k : K) (dn : Bool) (pr : Nat) :
    assoc_find (policy_add_entry t k dn pr) k = some (ins_merge (assoc_find t k) dn pr) := by
  induction t with
  | nil => simp [policy_add_entry, assoc_find, ins_merge]
  | cons hd t ih =>
      obtain ⟨k1, d⟩ := hd
      by_cases hk : k = k1
      · subst hk
        simp [policy_add_entry, assoc_find, ins_merge]
      · simp [policy_add_entry, assoc_find, hk, ih]

theorem assoc_find_add_other {K : Type} [DecidableEq K] (t : List (K × PolicyDecision)) (k k1 : K) (dn : Bool) (pr : Nat) (h : k ≠ k1) :
    assoc_find (policy_add_entry t k1 dn pr) k = assoc_find t k := by
  induction t with
  | nil => simp [policy_add_entry, assoc_find, h]
  | cons hd t ih =>
      obtain ⟨k2, d⟩ := hd
      by_cases hk : k1 = k2
      · subst hk
        simp [policy_add_entry, assoc_find, h]
      · simp only [policy_add_entry, if_neg hk]
        by_cases hk2 : k = k2
        · subst hk2; simp [assoc_find]
        · simp [assoc_find, hk2, ih]

theorem mem_keys_add {K : Type} [DecidableEq K] (t : List (K × PolicyDecision)) (k1 k : K) (dn : Bool) (pr : Nat) :
    k ∈ (policy_add_entry t k1 dn pr).map Prod.fst → k ∈ t.map Prod.fst ∨ k = k1 := by
  induction t with
  | nil => simp [policy_add_entry]
  | cons hd t ih =>
      obtain ⟨k2, d⟩ := hd
      by_cases hk : k1 = k2
      · subst hk
        simp [policy_add_entry]
        intro h
        rcases h with h | h
        · exact Or.inl (Or.inl h)
        · exact Or.inl (Or.inr h)
      · simp only [policy_add_entry, if_neg hk, List.map_cons, List.mem_cons]
        intro h
        rcases h with h | h
        · exact Or.inl (by simp [h])
        · rcases ih h with h2 | h2
          · exact Or.inl (by simp [h2])
          · exact Or.inr h2

theorem nodup_keys_add {K : Type} [DecidableEq K] (t : List (K × PolicyDecision)) (k : K) (dn : Bool) (pr : Nat) (h : (t.map Prod.fst).Nodup) :
    ((policy_add_entry t k dn pr).map Prod.fst).Nodup := by
  induction t with
  | nil => simp [policy_add_entry]
  | cons hd t ih =>
      obtain ⟨k2, d⟩ := hd
      simp only [List.map_cons, List.nodup_cons] at h
      by_cases hk : k = k2
      · subst hk
        simpa [policy_add_entry, List.nodup_cons] using h
      · simp only [policy_add_entry, if_neg hk, List.map_cons, List.nodup_cons]
        refine ⟨fun hmem => ?_, ih h.2⟩
        rcases mem_keys_add t k k2 dn pr hmem with h2 | h2
        · exact h.1 h2
        · exact hk h2.symm

theorem max_priority_cons (d : PolicyDecision) (ds : List PolicyDecision) :
    max_priority (d :: ds) = max d.priority (max_priority ds) := rfl

theorem max_priority_append_one (ds : List PolicyDecision) (d : PolicyDecision) :
    max_priority (ds ++ [d]) = max (max_priority ds) d.priority := by
  induction ds with
  | nil => simp [max_priority]
  | cons a t ih =>
      rw [List.cons_append, max_priority_cons, max_priority_cons, ih]
      omega

theorem le_max_priority (ds : List PolicyDecision) (d : PolicyDecision) (h : d ∈ ds) :
    d.priority ≤ max_priority ds := by
  induction ds with
  | nil => cases h
  | cons a t ih =>
      rw [max_priority_cons]
      rcases List.mem_cons.mp h with h1 | h1
      · subst h1; omega
      · have := ih h1; omega

theorem max_priority_attained (ds : List PolicyDecision) (h : ds ≠ []) :
    ∃ d ∈ ds, d.priority = max_priority ds := by
  induction ds with
  | nil => exact absurd rfl h
  | cons a t ih =>
      rcases eq_or_ne t [] with ht | ht
      · subst ht
        exact ⟨a, List.mem_cons_self a [], by simp [max_priority]⟩
      · obtain ⟨d, hd, hdp⟩ := ih ht
        by_cases hle : a.priority ≤ max_priority t
        · refine ⟨d, List.mem_cons_of_mem a hd, ?_⟩
          rw [max_priority_cons]; omega
        · refine ⟨a, List.mem_cons_self a t, ?_⟩
          rw [max_priority_cons]; omega

theorem earliest_highest_of_ne_nil (ds : List PolicyDecision) (h : ds ≠ []) :
    ∃ c, earliest_highest ds = some c ∧ c.priority = max_priority ds := by
  obtain ⟨d, hd, hdp⟩ := max_priority_attained ds h
  have hmem : d ∈ ds.filter (fun d => d.priority == max_priority ds) :=
    List.mem_filter.mpr ⟨hd, by simp [hdp]⟩
  cases hE : ds.filter (fun d => d.priority == max_priority ds) with
  | nil => rw [hE] at hmem; cases hmem
  | cons c rest =>
      refine ⟨c, by simp [earliest_highest, hE], ?_⟩
      have hc : c ∈ ds.filter (fun d => d.priority == max_priority ds) := by
        rw [hE]; exact List.mem_cons_self c rest
      have := (List.mem_filter.mp hc).2
      simpa using this

theorem earliest_highest_append_one (ds : List PolicyDecision) (d : PolicyDecision) :
    earliest_highest (ds ++ [d]) = some (ins_merge (earliest_highest ds) d.deny d.priority) := by
  rcases eq_or_ne ds [] with hds | hds
  · subst hds
    simp [earliest_highest, ins_merge, max_priority]
  · obtain ⟨c, hc, hcp⟩ := earliest_highest_of_ne_nil ds hds
    rw [hc]
    have hhead : (ds.filter (fun x => x.priority == max_priority ds)).head? = some c := hc
    by_cases hlt : c.priority < d.priority
    · have hmax : max_priority (ds ++ [d]) = d.priority := by
        rw [max_priority_append_one]; omega
      have hnil : ds.filter (fun x => x.priority == max_priority (ds ++ [d])) = [] := by
        rw [List.filter_eq_nil_iff]
        intro a ha
        have := le_max_priority ds a ha
        simp only [beq_iff_eq, hmax]
        omega
      have hfil : (ds ++ [d]).filter (fun x => x.priority == max_priority (ds ++ [d])) = [d] := by
        rw [List.filter_append, hnil, List.nil_append, List.filter_cons, List.filter_nil]
        simp [hmax]
      rw [show earliest_highest (ds ++ [d]) = ((ds ++ [d]).filter (fun x => x.priority == max_priority (ds ++ [d]))).head? from rfl, hfil]
      simp [ins_merge, hlt]
    · have hmax : max_priority (ds ++ [d]) = max_priority ds := by
        rw [max_priority_append_one]; omega
      cases hE : ds.filter (fun x => x.priority == max_priority ds) with
      | nil => rw [hE] at hhead; cases hhead
      | cons c1 rest =>
          rw [hE] at hhead
          have hc1 : c1 = c := by simpa using hhead
          subst hc1
          have hfil : (ds ++ [d]).filter (fun x => x.priority == max_priority (ds ++ [d])) =
              c1 :: (rest ++ [d].filter (fun x => x.priority == max_priority ds)) := by
            rw [hmax, List.filter_append, hE, List.cons_append]
          rw [show earliest_highest (ds ++ [d]) = ((ds ++ [d]).filter (fun x => x.priority == max_priority (ds ++ [d]))).head? from rfl, hfil]
          simp [ins_merge, hlt]

/-- C3 counterexample: two insertions with the same key and equal priority —
the stored decision is the OLDER one (the first insertion's allow), not the
newer deny the claim requires: `policy_add_entry` overwrites only on strictly
higher priority (policy.c:117, policy.c:260). -/
theorem C3_equal_priority_counterexample :
    assoc_find (policy_add_entry (policy_add_entry ([] : List (Nat × PolicyDecision)) 0 false 5) 0 true 5) 0 = some ⟨false, 5⟩ ∧
    some (⟨false, 5⟩ : PolicyDecision) ≠ some (⟨true, 5⟩ : PolicyDecision) := by
  decide

/-- C3 (amended): for every sequence of insertions each key appears at most
once in the store, and the decision stored for a key is that of the
highest-priority insertion for that key; when two insertions for the same key
have equal priority, the OLDER (earlier) insertion's decision is kept. -/
theorem C3_add_entry_keeps_highest_priority_oldest_tie :
    ∀ (K : Type) [DecidableEq K] (inss : List (K × Bool × Nat)) (k : K),
      ((inss.foldl (fun t i => policy_add_entry t i.1 i.2.1 i.2.2) []).map Prod.fst).Nodup ∧
      assoc_find (inss.foldl (fun t i => policy_add_entry t i.1 i.2.1 i.2.2) []) k =
        earliest_highest ((inss.filter (fun i => decide (i.1 = k))).map (fun i => ⟨i.2.1, i.2.2⟩)) := by
  intro K instK inss k
  induction inss using List.reverseRecOn with
  | nil => exact ⟨List.nodup_nil, rfl⟩
  | append_singleton t i ih =>
      obtain ⟨ihN, ihF⟩ := ih
      rw [List.foldl_append, List.foldl_cons, List.foldl_nil]
      constructor
      · exact nodup_keys_add _ _ _ _ ihN
      · by_cases hk : i.1 = k
        · rw [← hk] at ihF ⊢
          rw [assoc_find_add_self, ihF]
          have hfil : List.filter (fun j => decide (j.1 = i.1)) (t ++ [i]) =
              List.filter (fun j => decide (j.1 = i.1)) t ++ [i] := by
            rw [List.filter_append]
            simp
          rw [hfil, List.map_append]
          rw [show List.map (fun j => (⟨j.2.1, j.2.2⟩ : PolicyDecision)) [i] = [⟨i.2.1, i.2.2⟩] from rfl]
          rw [earliest_highest_append_one]
        · rw [assoc_find_add_other _ _ _ _ _ (fun h => hk h.symm), ihF]
          have hfil : List.filter (fun j => decide (j.1 = k)) (t ++ [i]) =
              List.filter (fun j => decide (j.1 = k)) t := by
            rw [List.filter_append]
            simp [hk]
          rw [hfil]

/-- Witness for C3: three insertions for key 3 (priority 2 deny, then priority
7 allow, then priority 7 deny): the store keeps the priority-7 allow — the
earliest of the highest-priority insertions. -/
theorem C3_add_entry_keeps_highest_priority_oldest_tie_witness :
    assoc_find ([((3 : Nat), true, 2), (3, false, 7), (3, true, 7)].foldl (fun t i => policy_add_entry t i.1 i.2.1 i.2.2) []) 3 =
      earliest_highest (([((3 : Nat), true, 2), (3, false, 7), (3, true, 7)].filter (fun i => decide (i.1 = 3))).map (fun i => ⟨i.2.1, i.2.2⟩)) :=
  (C3_add_entry_keeps_highest_priority_oldest_tie Nat [((3 : Nat), true, 2), (3, false, 7), (3, true, 7)] 3).2

theorem transmission_update_eq_merge_run (i m e pa : Option (List Char)) (ty : Int) :
    ∀ (l : List TransmissionPolicyEntry) (d : PolicyDecision),
      transmission_policy_update_decision l i m e pa ty d =
        merge_run d ((l.filter (fun en => transmission_entry_matches en i m e pa ty)).map (fun en => en.decision)) := by
  intro l
  induction l with
  | nil => intro d; rfl
  | cons en t ih =>
      intro d
      simp only [transmission_policy_update_decision, merge_run] at ih ⊢
      rw [List.foldl_cons, List.filter_cons]
      by_cases hm : transmission_entry_matches en i m e pa ty
      · rw [if_pos hm, if_pos hm, List.map_cons, List.foldl_cons]
        exact ih _
      · rw [if_neg hm, if_neg hm, ite_self]
        exact ih d

theorem merge_run_priority (ds : List PolicyDecision) :
    ∀ init : PolicyDecision, (merge_run init ds).priority = max init.priority (max_priority ds) := by
  induction ds with
  | nil => intro init; simp [merge_run, max_priority]
  | cons e t ih =>
      intro init
      rw [show merge_run init (e :: t) = merge_run (if e.priority < init.priority then init else e) t from rfl]
      rw [ih, max_priority_cons]
      by_cases hp : e.priority < init.priority
      · rw [if_pos hp]; omega
      · rw [if_neg hp]; omega

theorem merge_run_neutral (ds : List PolicyDecision) :
    merge_run ⟨false, 0⟩ ds = (latest_highest ds).getD ⟨false, 0⟩ := by
  induction ds using List.reverseRecOn with
  | nil => rfl
  | append_singleton t e ih =>
      have hstep : merge_run ⟨false, 0⟩ (t ++ [e]) =
          (if e.priority < (merge_run ⟨false, 0⟩ t).priority then merge_run ⟨false, 0⟩ t else e) := by
        simp [merge_run, List.foldl_append]
      have hRp : (merge_run ⟨false, 0⟩ t).priority = max_priority t := by
        rw [merge_run_priority]
        simp
      rcases eq_or_ne t [] with ht | ht
      · subst ht
        rw [hstep]
        simp only [latest_highest, List.nil_append, max_priority_cons]
        have : max e.priority (max_priority []) = e.priority := by
          simp [max_priority]
        rw [this, List.filter_cons]
        simp [merge_run, max_priority]
      · by_cases hlt : e.priority < max_priority t
        · have hmax : max_priority (t ++ [e]) = max_priority t := by
            rw [max_priority_append_one]; omega
          have hfil : (t ++ [e]).filter (fun x => x.priority == max_priority (t ++ [e])) =
              t.filter (fun x => x.priority == max_priority t) := by
            rw [hmax, List.filter_append, List.filter_cons, List.filter_nil]
            rw [if_neg (by simp; omega)]
            rw [List.append_nil]
          rw [hstep, if_pos (by omega : e.priority < (merge_run ⟨false, 0⟩ t).priority)]
          rw [ih]
          simp only [latest_highest, hfil]
        · have hmax : max_priority (t ++ [e]) = e.priority := by
            rw [max_priority_append_one]; omega
          have hfil : (t ++ [e]).filter (fun x => x.priority == max_priority (t ++ [e])) =
              t.filter (fun x => x.priority == e.priority) ++ [e] := by
            rw [hmax, List.filter_append, List.filter_cons, List.filter_nil]
            rw [if_pos (by simp)]
          rw [hstep, if_neg (by omega : ¬ e.priority < (merge_run ⟨false, 0⟩ t).priority)]
          simp only [latest_highest, hfil, List.getLast?_concat, Option.getD_some]

theorem mem_prefix_scan (rest : List Char) :
    ∀ scanned k : Nat,
      k ∈ prefix_scan scanned rest ↔
        ((∃ j, j < rest.length ∧ rest[j]? = some '.' ∧ k = scanned + j) ∨ k = scanned + rest.length) := by
  induction rest with
  | nil =>
      intro scanned k
      simp [prefix_scan]
  | cons c r ih =>
      intro scanned k
      by_cases hc : c = '.'
      · rw [show prefix_scan scanned (c :: r) = scanned :: prefix_scan (scanned + 1) r from by
            simp [prefix_scan, hc]]
        rw [List.mem_cons, ih]
        constructor
        · rintro (hk | ⟨j, hj, hdot, hk⟩ | hk)
          · exact Or.inl ⟨0, by simp only [List.length_cons]; omega, by simp [hc], by omega⟩
          · exact Or.inl ⟨j + 1, by simp only [List.length_cons]; omega, by simpa using hdot, by omega⟩
          · exact Or.inr (by simp only [List.length_cons]; omega)
        · rintro (⟨j, hj, hdot, hk⟩ | hk)
          · cases j with
            | zero => exact Or.inl (by omega)
            | succ j1 =>
                refine Or.inr (Or.inl ⟨j1, ?_, ?_, ?_⟩)
                · simp only [List.length_cons] at hj; omega
                · simpa using hdot
                · omega
          · exact Or.inr (Or.inr (by simp only [List.length_cons] at hk; omega))
      · rw [show prefix_scan scanned (c :: r) = prefix_scan (scanned + 1) r from by
            simp [prefix_scan, hc]]
        rw [ih]
        constructor
        · rintro (⟨j, hj, hdot, hk⟩ | hk)
          · exact Or.inl ⟨j + 1, by simp only [List.length_cons]; omega, by simpa using hdot, by omega⟩
          · exact Or.inr (by simp only [List.length_cons]; omega)
        · rintro (⟨j, hj, hdot, hk⟩ | hk)
          · cases j with
            | zero =>
                exfalso
                rw [List.getElem?_cons_zero] at hdot
                exact hc (by simpa using hdot)
            | succ j1 =>
                refine Or.inl ⟨j1, ?_, ?_, ?_⟩
                · simp only [List.length_cons] at hj; omega
                · simpa using hdot
                · omega
          · exact Or.inr (by simp only [List.length_cons] at hk; omega)

theorem prefix_candidate_iff (N P : List Char) (hN : N ≠ []) (hP : P ≠ []) :
    (∃ k ∈ prefix_scan 1 (N.drop 1), N.take k = P) ↔ (N = P ∨ ∃ s, N = P ++ '.' :: s) := by
  obtain ⟨c0, rest, rfl⟩ := List.exists_cons_of_ne_nil hN
  rw [show (c0 :: rest).drop 1 = rest from rfl]
  constructor
  · rintro ⟨k, hkmem, htake⟩
    rw [mem_prefix_scan] at hkmem
    rcases hkmem with ⟨j, hj, hdot, hk⟩ | hk
    · right
      have hklen : k < (c0 :: rest).length := by simp only [List.length_cons]; omega
      have hdotk : (c0 :: rest)[k] = '.' := by
        have hsome : (c0 :: rest)[k]? = some '.' := by
          rw [show k = j + 1 from by omega, List.getElem?_cons_succ]
          exact hdot
        rw [List.getElem?_eq_getElem hklen] at hsome
        exact Option.some.inj hsome
      refine ⟨(c0 :: rest).drop (k + 1), ?_⟩
      conv_lhs => rw [← List.take_append_drop k (c0 :: rest)]
      rw [htake, List.drop_eq_getElem_cons hklen, hdotk]
    · left
      rw [show k = (c0 :: rest).length from by simp only [List.length_cons]; omega] at htake
      rw [List.take_length] at htake
      exact htake
  · rintro (rfl | ⟨s, hs⟩)
    · refine ⟨(c0 :: rest).length, ?_, List.take_length _⟩
      rw [mem_prefix_scan]
      exact Or.inr (by simp only [List.length_cons]; omega)
    · obtain ⟨p0, P1, rfl⟩ := List.exists_cons_of_ne_nil hP
      have hrest : rest = P1 ++ '.' :: s := by
        have htail := congrArg List.tail hs
        simpa using htail
      refine ⟨(p0 :: P1).length, ?_, ?_⟩
      · rw [mem_prefix_scan]
        left
        refine ⟨P1.length, ?_, ?_, ?_⟩
        · rw [hrest]; simp only [List.length_append, List.length_cons]; omega
        · rw [hrest, List.getElem?_append_right (le_refl P1.length)]
          simp
        · simp only [List.length_cons]; omega
      · rw [hs, List.take_left]

theorem update_singleton_eval (P key : List Char) (d : PolicyDecision) (hd : d.priority ≤ 1) :
    policy_update_decision [(P, ⟨true, 1⟩)] key d =
      if key = P then (⟨true, 1⟩ : PolicyDecision) else d := by
  by_cases hk : key = P
  · rw [if_pos hk]
    simp only [policy_update_decision, assoc_find, if_pos hk]
    rw [if_neg (by simp only []; omega : ¬ (⟨true, 1⟩ : PolicyDecision).priority < d.priority)]
  · rw [if_neg hk]
    simp [policy_update_decision, assoc_find, hk]

theorem ownership_fold_singleton_top (P name : List Char) :
    ∀ ks : List Nat,
      ks.foldl (fun d n => policy_update_decision [(P, ⟨true, 1⟩)] (name.take n) d) ⟨true, 1⟩ = ⟨true, 1⟩ := by
  intro ks
  induction ks with
  | nil => rfl
  | cons k t ih =>
      rw [List.foldl_cons, update_singleton_eval _ _ _ (by simp)]
      by_cases hk : name.take k = P
      · rw [if_pos hk]; exact ih
      · rw [if_neg hk]; exact ih

theorem ownership_fold_singleton (P name : List Char) :
    ∀ ks : List Nat,
      ks.foldl (fun d n => policy_update_decision [(P, ⟨true, 1⟩)] (name.take n) d) ⟨false, 0⟩ =
        if ks.any (fun k => name.take k == P) then (⟨true, 1⟩ : PolicyDecision) else ⟨false, 0⟩ := by
  intro ks
  induction ks with
  | nil => rfl
  | cons k t ih =>
      rw [List.foldl_cons, update_singleton_eval _ _ _ (by simp)]
      by_cases hk : name.take k = P
      · rw [if_pos hk, ownership_fold_singleton_top]
        simp [List.any_cons, hk]
      · rw [if_neg hk, ih]
        simp [List.any_cons, hk]

/-- C5 counterexample: the empty prefix. With the single prefix entry for the
empty string (deny, priority 1) the name ".a" is still allowed, although ".a"
starts with the empty prefix followed by a dot: the scan of policy.c:161-169
starts at offset 1 and never produces the length-0 candidate, so the claim's
"merged iff N = P or N starts with P." fails for P = "". -/
theorem C5_empty_prefix_not_merged :
    ownership_policy_check_allowed ⟨[], [([], ⟨true, 1⟩)], ⟨false, 0⟩⟩ ['.', 'a'] = 0 ∧
    (['.', 'a'] = ([] : List Char) ++ '.' :: ['a']) := by
  decide

/-- C5 (amended): for every nonempty name N and nonempty prefix P, the prefix
entry for P is merged into the decision of ownership_policy_check_allowed(N)
iff N = P or N starts with P followed by a dot (so a.b matches a.b and a.b.c
but never a.bc); the empty prefix is never consulted, and the empty name is
undefined behaviour in the source. Merging is observed behaviourally: with P
the only entry (deny, priority 1) and a neutral wildcard, the check denies
exactly when the entry is merged. -/
theorem C5_prefix_merge_iff (N P : List Char) (hN : N ≠ []) (hP : P ≠ []) :
    ownership_policy_check_allowed ⟨[], [(P, ⟨true, 1⟩)], ⟨false, 0⟩⟩ N = POLICY_E_ACCESS_DENIED ↔
      (N = P ∨ ∃ s, N = P ++ '.' :: s) := by
  have h1 : ownership_policy_check_allowed ⟨[], [(P, ⟨true, 1⟩)], ⟨false, 0⟩⟩ N =
      if (prefix_scan 1 (N.drop 1)).any (fun k => N.take k == P) then POLICY_E_ACCESS_DENIED else 0 := by
    simp only [ownership_policy_check_allowed]
    rw [show policy_update_decision ([] : List (List Char × PolicyDecision)) N ⟨false, 0⟩ = ⟨false, 0⟩ from rfl]
    rw [if_neg (by simp : ¬ ([(P, (⟨true, 1⟩ : PolicyDecision))] = ([] : List (List Char × PolicyDecision))))]
    rw [ownership_fold_singleton]
    by_cases hany : (prefix_scan 1 (N.drop 1)).any (fun k => N.take k == P)
    · rw [if_pos hany, if_pos hany]; rfl
    · rw [if_neg hany, if_neg hany]; rfl
  rw [h1]
  have h2 : ((prefix_scan 1 (N.drop 1)).any (fun k => N.take k == P) = true) ↔
      (N = P ∨ ∃ s, N = P ++ '.' :: s) := by
    rw [List.any_eq_true]
    constructor
    · rintro ⟨k, hkmem, hkP⟩
      exact (prefix_candidate_iff N P hN hP).mp ⟨k, hkmem, by simpa using hkP⟩
    · intro h
      obtain ⟨k, hkmem, htake⟩ := (prefix_candidate_iff N P hN hP).mpr h
      exact ⟨k, hkmem, by simpa using htake⟩
  by_cases hany : (prefix_scan 1 (N.drop 1)).any (fun k => N.take k == P)
  · rw [if_pos hany]
    exact iff_of_true rfl (h2.mp hany)
  · rw [if_neg hany]
    exact iff_of_false (by decide) (fun h => hany (h2.mpr h))

/-- Witness for C5: prefix "a.b" (as the only entry, deny at priority 1)
denies the name "a.b.c". -/
theorem C5_prefix_merge_iff_witness :
    ownership_policy_check_allowed ⟨[], [(['a', '.', 'b'], ⟨true, 1⟩)], ⟨false, 0⟩⟩ ['a', '.', 'b', '.', 'c'] = POLICY_E_ACCESS_DENIED :=
  (C5_prefix_merge_iff ['a', '.', 'b', '.', 'c'] ['a', '.', 'b'] (by decide) (by decide)).mpr
    (Or.inr ⟨['c'], by decide⟩)

/-- C8: within a transmission entry list the final decision is that of the
highest-priority matching entry, and among matching entries of equal priority
the latest-appended one wins; in particular appending an all-wildcard allow at
priority 5 and then an all-wildcard deny at priority 5 yields denial. -/
theorem C8_latest_highest_priority_matching_entry_wins :
    (∀ (l : List TransmissionPolicyEntry) (i m e pa : Option (List Char)) (ty : Int),
      transmission_policy_update_decision l i m e pa ty ⟨false, 0⟩ =
        (latest_highest ((l.filter (fun en => transmission_entry_matches en i m e pa ty)).map (fun en => en.decision))).getD ⟨false, 0⟩) ∧
    transmission_policy_check_allowed
      (tranmsission_policy_add_entry
        (tranmsission_policy_add_entry ⟨[], []⟩ none none none none none 0 false 5 none none)
        none none none none none 0 true 5 none none)
      none none none none none 0 = POLICY_E_ACCESS_DENIED := by
  constructor
  · intro l i m e pa ty
    rw [transmission_update_eq_merge_run, merge_run_neutral]
  · decide

theorem owned_fold_filter_primary (p : TransmissionPolicy) (i m e pa : Option (List Char)) (ty : Int) (l : List NameOwnership) :
    ∀ d : PolicyDecision,
      (l.filter (fun o => o.primary)).foldl
        (fun d o => if o.primary then transmission_policy_update_decision_by_name p.policy_by_name_tree o.name i m e pa ty d else d) d =
      l.foldl
        (fun d o => if o.primary then transmission_policy_update_decision_by_name p.policy_by_name_tree o.name i m e pa ty d else d) d := by
  induction l with
  | nil => intro d; rfl
  | cons o t ih =>
      intro d
      rw [List.filter_cons]
      by_cases hp : o.primary
      · rw [if_pos hp, List.foldl_cons, List.foldl_cons]
        exact ih _
      · rw [if_neg hp, List.foldl_cons, if_neg hp]
        exact ih d

theorem owned_fold_frame (p p1 : TransmissionPolicy) (i m e pa : Option (List Char)) (ty : Int) :
    ∀ l : List NameOwnership,
      (∀ o ∈ l, o.primary = true → assoc_find p.policy_by_name_tree o.name = assoc_find p1.policy_by_name_tree o.name) →
      ∀ d : PolicyDecision,
        l.foldl (fun d o => if o.primary then transmission_policy_update_decision_by_name p.policy_by_name_tree o.name i m e pa ty d else d) d =
        l.foldl (fun d o => if o.primary then transmission_policy_update_decision_by_name p1.policy_by_name_tree o.name i m e pa ty d else d) d := by
  intro l
  induction l with
  | nil => intro _ d; rfl
  | cons o t ih =>
      intro hfind d
      rw [List.foldl_cons, List.foldl_cons]
      have hstep : (if o.primary then transmission_policy_update_decision_by_name p.policy_by_name_tree o.name i m e pa ty d else d) =
          (if o.primary then transmission_policy_update_decision_by_name p1.policy_by_name_tree o.name i m e pa ty d else d) := by
        by_cases hp : o.primary
        · rw [if_pos hp, if_pos hp]
          unfold transmission_policy_update_decision_by_name
          rw [hfind o (List.mem_cons_self o t) hp]
        · rw [if_neg hp, if_neg hp]
      rw [hstep]
      exact ih (fun o2 ho2 hp2 => hfind o2 (List.mem_cons_of_mem o ho2) hp2) _

/-- C7: a transmission check consults exactly the per-name lists of the names
the subject primary-owns (secondary, i.e. queued, ownerships contribute
nothing), for an absent subject exactly the list keyed by the synthetic name
"org.freedesktop.DBus", and in both cases the wildcard list: (1) dropping all
non-primary ownerships does not change the result; (2) an absent subject
behaves like a peer primary-owning exactly "org.freedesktop.DBus"; (3) two
policies agreeing on the wildcard list and on the by-name lookup of every
primary-owned name of the subject give the same result. -/
theorem C7_exactly_primary_names_consulted :
    (∀ (p : TransmissionPolicy) (peer : Peer) (i m e pa : Option (List Char)) (ty : Int),
      transmission_policy_check_allowed p (some peer) i m e pa ty =
        transmission_policy_check_allowed p (some ⟨peer.owned_names.filter (fun o => o.primary)⟩) i m e pa ty) ∧
    (∀ (p : TransmissionPolicy) (i m e pa : Option (List Char)) (ty : Int),
      transmission_policy_check_allowed p none i m e pa ty =
        transmission_policy_check_allowed p (some ⟨[⟨dbus_driver_name, true⟩]⟩) i m e pa ty) ∧
    (∀ (p p1 : TransmissionPolicy) (peer : Peer) (i m e pa : Option (List Char)) (ty : Int),
      p.wildcard_entry_list = p1.wildcard_entry_list →
      (∀ o ∈ peer.owned_names, o.primary = true →
        assoc_find p.policy_by_name_tree o.name = assoc_find p1.policy_by_name_tree o.name) →
      transmission_policy_check_allowed p (some peer) i m e pa ty =
        transmission_policy_check_allowed p1 (some peer) i m e pa ty) := by
  refine ⟨?_, ?_, ?_⟩
  · intro p peer i m e pa ty
    simp only [transmission_policy_check_allowed, owned_fold_filter_primary]
  · intro p i m e pa ty
    rfl
  · intro p p1 peer i m e pa ty hw hfind
    simp only [transmission_policy_check_allowed,
      owned_fold_frame p p1 i m e pa ty peer.owned_names hfind, hw]

/-- Witness for C7 part 3: a policy with a deny-all entry list for name "a"
gives the same (allowing) answer as the empty policy for a peer that owns "a"
only as a secondary (queued) owner. -/
theorem C7_exactly_primary_names_consulted_witness :
    transmission_policy_check_allowed ⟨[(['a'], [⟨none, none, none, none, 0, ⟨true, 1⟩⟩])], []⟩ (some ⟨[⟨['a'], false⟩]⟩) none none none none 0 =
      transmission_policy_check_allowed ⟨[], []⟩ (some ⟨[⟨['a'], false⟩]⟩) none none none none 0 := by
  refine C7_exactly_primary_names_consulted.2.2 _ _ _ none none none none 0 rfl ?_
  intro o ho hp
  simp only [List.mem_singleton] at ho
  subst ho
  exact absurd hp (by decide)

/-- C9: a missing policy file (fopen fails with ENOENT) makes loading succeed
with 0 as for an empty document, both in `policy_parser_parse_file` and in
`policy_parse`; an existing but unreadable file (fopen failing with any other
errno, or fread failing, which yields EIO) makes loading fail with the
negative errno — an IoError. -/
theorem C9_missing_file_benign_unreadable_fails (e : Nat) (he : e ≠ errno_enoent) (hpos : 0 < e) :
    policy_parser_parse_file (FileOutcome.openFail errno_enoent) = 0 ∧
    policy_parse (FileOutcome.openFail errno_enoent) = 0 ∧
    policy_parser_parse_file FileOutcome.readFail = -(errno_eio : Int) ∧
    policy_parse FileOutcome.readFail = -(errno_eio : Int) ∧
    policy_parser_parse_file (FileOutcome.openFail e) = -(e : Int) ∧
    policy_parser_parse_file (FileOutcome.openFail e) < 0 ∧
    policy_parse (FileOutcome.openFail e) = -(e : Int) := by
  have h1 : policy_parser_parse_file (FileOutcome.openFail e) = -(e : Int) := by
    simp [policy_parser_parse_file, he]
  refine ⟨by decide, by decide, by decide, by decide, h1, by rw [h1]; omega, ?_⟩
  simp only [policy_parse, h1, POLICY_E_INVALID_XML]
  rw [if_pos ⟨by omega, by omega⟩]

/-- Witness for C9 at errno 13 (EACCES): an unreadable file fails the load
with -13. -/
theorem C9_missing_file_benign_unreadable_fails_witness :
    policy_parser_parse_file (FileOutcome.openFail 13) = -13 ∧ policy_parse (FileOutcome.openFail 13) = -13 := by
  have h := C9_missing_file_benign_unreadable_fails 13 (by decide) (by decide)
  exact ⟨by simpa using h.2.2.2.2.1, by simpa using h.2.2.2.2.2.2⟩

/-- A fold over ownerships against an empty by-name tree changes nothing. -/
theorem owned_fold_empty_tree (i m e pa : Option (List Char)) (ty : Int) (l : List NameOwnership) :
    ∀ d : PolicyDecision,
      l.foldl (fun d o => if o.primary then transmission_policy_update_decision_by_name [] o.name i m e pa ty d else d) d = d := by
  induction l with
  | nil => intro d; rfl
  | cons o t ih =>
      intro d
      simp only [List.foldl_cons]
      have h : (if o.primary then transmission_policy_update_decision_by_name [] o.name i m e pa ty d else d) = d := by
        cases o.primary <;> rfl
      rw [h]
      exact ih d

/-- C4: a freshly initialized (empty) ConnectionPolicy, OwnershipPolicy, or
TransmissionPolicy — no entries, no wildcards set — answers every query with
0 (allowed): the neutral decision (deny=false, priority=0) survives
unchanged. -/
theorem C4_empty_policy_allows :
    (∀ uid : Nat, connection_policy_check_allowed ⟨[], [], ⟨false, 0⟩, ⟨false, 0⟩⟩ uid = 0) ∧
    (∀ name : List Char, ownership_policy_check_allowed ⟨[], [], ⟨false, 0⟩⟩ name = 0) ∧
    (∀ (subject : Option Peer) (i m e pa : Option (List Char)) (ty : Int),
      transmission_policy_check_allowed ⟨[], []⟩ subject i m e pa ty = 0) := by
  refine ⟨fun uid => rfl, fun name => rfl, fun subject i m e pa ty => ?_⟩
  cases subject with
  | none => rfl
  | some peer =>
      simp only [transmission_policy_check_allowed]
      rw [owned_fold_empty_tree i m e pa ty peer.owned_names]
      rfl

/-- C1 (code bug): the spec requires `check_allowed(uid, gids)` to merge the
entry keyed by each supplementary gid, but `connection_policy_check_allowed`
never consults the gid tree (the `XXX: check the groups too` comment at
policy.c:304). With a single gid entry (gid 100, deny, priority 1), no uid
entries and neutral wildcards, the code allows uid 7 with gids [100], while
the spec-modelled check denies it. -/
theorem C1_group_entries_ignored :
    connection_policy_check_allowed ⟨[], [(100, ⟨true, 1⟩)], ⟨false, 0⟩, ⟨false, 0⟩⟩ 7 = 0 ∧
    connection_policy_check_allowed_spec ⟨[], [(100, ⟨true, 1⟩)], ⟨false, 0⟩, ⟨false, 0⟩⟩ 7 [100] = POLICY_E_ACCESS_DENIED := by
  decide

/-- C2 (code bug): for a structurally malformed document the chunk parser
returns POLICY_E_INVALID_XML, but `policy_parse` only prints the diagnostic
and returns 0 — it reports success to the caller, contradicting the claim
that loading a malformed document never reports success. -/
theorem C2_malformed_document_reports_success :
    policy_parser_parse_file (FileOutcome.content false false) = POLICY_E_INVALID_XML ∧
    policy_parse (FileOutcome.content false false) = 0 := by
  decide

/-- C6 (code bug): an entry created by `transmission_policy_entry_new` with
the `error` argument absent does not act as a wildcard on the error field:
the field is left uninitialized (no else branch at policy.c:339), so whatever
string the garbage happens to denote is matched against the request. With
garbage reading as the string "x", the entry matches a request whose error is
"x" but not one whose error is "y" — two requests differing only in the
absent field. -/
theorem C6_absent_error_field_not_wildcard :
    (transmission_policy_entry_new none none none none 0 true 7 (some ['x']) none).err = some ['x'] ∧
    transmission_entry_matches (transmission_policy_entry_new none none none none 0 true 7 (some ['x']) none) none none (some ['x']) none 0 = true ∧
    transmission_entry_matches (transmission_policy_entry_new none none none none 0 true 7 (some ['x']) none) none none (some ['y']) none 0 = false := by
  decide

/-- C10: when the two wildcards have equal priority,
`connection_policy_check_allowed` starts from the gid wildcard's decision
(the strict comparison at policy.c:297 prefers the gid side on ties), so a
uid with no per-uid entry gets exactly the gid wildcard's outcome. -/
theorem C10_equal_wildcards_start_from_gid (p : ConnectionPolicy) (uid : Nat)
    (hpri : p.uid_wildcard.priority = p.gid_wildcard.priority)
    (hfind : assoc_find p.uid_tree uid = none) :
    connection_policy_check_allowed p uid = if p.gid_wildcard.deny then POLICY_E_ACCESS_DENIED else 0 := by
  simp only [connection_policy_check_allowed, policy_update_decision, hfind]
  rw [if_neg (by omega : ¬ p.uid_wildcard.priority > p.gid_wildcard.priority)]

/-- Witness for C10: uid wildcard allows at priority 3, gid wildcard denies at
priority 3, uid 5 has no entry — the connection is denied. -/
theorem C10_equal_wildcards_start_from_gid_witness :
    connection_policy_check_allowed ⟨[], [], ⟨false, 3⟩, ⟨true, 3⟩⟩ 5 = POLICY_E_ACCESS_DENIED := by
  have h := C10_equal_wildcards_start_from_gid ⟨[], [], ⟨false, 3⟩, ⟨true, 3⟩⟩ 5 rfl rfl
  simpa using h
